import Mathlib

/-!
Verification of the chunked-transfer pipeline of the Mega bot repository.

Each definition below is a shallow embedding of a function of the Python
source (`src/chunk_manager.py`, `src/uploader.py`, `src/bot.py`,
`src/database.py`, `src/mega_downloader.py`); the doc comment of every
definition names the source location it embeds.  Machine integers are
modelled as `Nat` (file sizes and byte counts are non-negative and never
overflow in the source), file contents as `List Nat` (one entry per byte),
and filesystem paths as `List Char`.
-/

namespace Mega

open scoped List

/-- `MegaFile` dataclass of `src/mega_downloader.py` (lines 40-47):
a file in MEGA storage with handle, name, size, path and parent handle. -/
structure MegaFile where
  handle : String
  name : String
  size : Nat
  path : String
  parent_handle : String
deriving DecidableEq

/-- `ChunkInfo` dataclass of `src/chunk_manager.py` (lines 24-32):
information about a download chunk.  `download_path` is the string path
`request_folder/chunk_<n>`; `zip_path` and `status` keep their Python
defaults `None` and `"pending"`. -/
structure ChunkInfo where
  chunk_number : Nat
  files : List MegaFile
  total_size : Nat
  download_path : String
  zip_path : Option String := none
  status : String := "pending"
deriving DecidableEq

instance : Inhabited ChunkInfo := ⟨⟨0, [], 0, "", none, "pending"⟩⟩

/-- The inner `for chunk in chunks` loop of
`ChunkManager.organize_files_into_chunks` (`src/chunk_manager.py`
lines 92-101): try to place `f` into the first already-open chunk whose
`total_size + f.size` does not exceed the byte budget
(`self.chunk_size_bytes`); `none` when no open chunk fits
(`placed = False`). -/
def tryPlaceFile (budget : Nat) (f : MegaFile) : List ChunkInfo → Option (List ChunkInfo)
  | [] => none
  | c :: cs =>
    if c.total_size + f.size ≤ budget then
      some ({ c with files := c.files ++ [f], total_size := c.total_size + f.size } :: cs)
    else
      match tryPlaceFile budget f cs with
      | some cs' => some (c :: cs')
      | none => none

/-- One iteration of the `for file in sorted_files` loop of
`organize_files_into_chunks` (`src/chunk_manager.py` lines 92-114):
place the file in the first fitting chunk, or open a new chunk
(`chunk_number = len(chunks)`, `download_path = request_folder/chunk_<n>`)
containing just that file. -/
def placeFile (requestFolder : String) (budget : Nat)
    (chunks : List ChunkInfo) (f : MegaFile) : List ChunkInfo :=
  match tryPlaceFile budget f chunks with
  | some chunks' => chunks'
  | none =>
      chunks ++ [{ chunk_number := chunks.length
                   files := [f]
                   total_size := f.size
                   download_path := requestFolder ++ "/chunk_" ++ toString chunks.length }]

/-- `sorted(files, key=lambda f: f.size, reverse=True)` of
`src/chunk_manager.py` line 88: a stable sort by size descending.
Python's stable descending sort places a file before another exactly when
its size is strictly larger, keeping the original order of equal sizes;
`List.insertionSort` with the relation `b.size ≤ a.size` has the same
behaviour. -/
def sortBySizeDesc (files : List MegaFile) : List MegaFile :=
  List.insertionSort (fun a b => b.size ≤ a.size) files

/-- `ChunkManager.organize_files_into_chunks` (`src/chunk_manager.py`
lines 71-118): first-fit decreasing bin packing of `files` into chunks of
at most `budget` bytes (`self.chunk_size_bytes`). -/
def organize_files_into_chunks (requestFolder : String) (budget : Nat)
    (files : List MegaFile) : List ChunkInfo :=
  (sortBySizeDesc files).foldl (placeFile requestFolder budget) []

/-- Invariant maintained by the planner for every open chunk: the
`total_size` counter equals the sum of the assigned file sizes, and either
that sum is within the budget or the chunk is a singleton holding one
oversized file. -/
def chunkInv (budget : Nat) (c : ChunkInfo) : Prop :=
  c.total_size = (c.files.map MegaFile.size).sum ∧
    ((c.files.map MegaFile.size).sum ≤ budget ∨
      ∃ g, c.files = [g] ∧ budget < g.size)

theorem tryPlaceFile_inv {budget : Nat} {f : MegaFile} :
    ∀ {chunks chunks' : List ChunkInfo},
      tryPlaceFile budget f chunks = some chunks' →
      (∀ c ∈ chunks, chunkInv budget c) →
      ∀ c ∈ chunks', chunkInv budget c := by
  intro chunks
  induction chunks with
  | nil => intro chunks' h; simp [tryPlaceFile] at h
  | cons c cs ih =>
      intro chunks' h hinv
      rw [tryPlaceFile] at h
      by_cases hfit : c.total_size + f.size ≤ budget
      · rw [if_pos hfit] at h
        cases h
        intro d hd
        rcases List.mem_cons.1 hd with hd | hd
        · subst hd
          obtain ⟨hts, _⟩ := hinv c (List.mem_cons_self c cs)
          refine ⟨?_, Or.inl ?_⟩
          · simp only [List.map_append, List.sum_append, List.map_cons, List.map_nil,
              List.sum_cons, List.sum_nil]
            omega
          · simp only [List.map_append, List.sum_append, List.map_cons, List.map_nil,
              List.sum_cons, List.sum_nil]
            omega
        · exact hinv d (List.mem_cons_of_mem c hd)
      · rw [if_neg hfit] at h
        cases hrec : tryPlaceFile budget f cs with
        | none => rw [hrec] at h; cases h
        | some cs' =>
            rw [hrec] at h
            cases h
            intro d hd
            rcases List.mem_cons.1 hd with hd | hd
            · subst hd; exact hinv d (List.mem_cons_self d cs)
            · exact ih hrec (fun e he => hinv e (List.mem_cons_of_mem c he)) d hd

theorem placeFile_inv {requestFolder : String} {budget : Nat}
    {chunks : List ChunkInfo} {f : MegaFile}
    (hinv : ∀ c ∈ chunks, chunkInv budget c) :
    ∀ c ∈ placeFile requestFolder budget chunks f, chunkInv budget c := by
  rw [placeFile]
  cases h : tryPlaceFile budget f chunks with
  | some chunks' => exact tryPlaceFile_inv h hinv
  | none =>
      intro d hd
      rcases List.mem_append.1 hd with hd | hd
      · exact hinv d hd
      · rcases List.mem_singleton.1 hd with rfl
        refine ⟨by simp, ?_⟩
        rcases le_or_lt f.size budget with hle | hlt
        · exact Or.inl (by simpa using hle)
        · exact Or.inr ⟨f, rfl, hlt⟩

theorem foldl_placeFile_inv {requestFolder : String} {budget : Nat} :
    ∀ (fs : List MegaFile) (chunks : List ChunkInfo),
      (∀ c ∈ chunks, chunkInv budget c) →
      ∀ c ∈ fs.foldl (placeFile requestFolder budget) chunks, chunkInv budget c := by
  intro fs
  induction fs with
  | nil => intro chunks hinv; simpa using hinv
  | cons f fs ih =>
      intro chunks hinv
      exact ih (placeFile requestFolder budget chunks f) (placeFile_inv hinv)

/-- C1: every chunk produced by `organize_files_into_chunks` has total
assigned file size at most the byte budget, except chunks consisting of
exactly one file whose own size exceeds the budget; moreover any file
larger than the budget ends up alone in its chunk. -/
theorem organize_chunk_size_bound (requestFolder : String) (budget : Nat)
    (files : List MegaFile) (_hb : 0 < budget) :
    ∀ c ∈ organize_files_into_chunks requestFolder budget files,
      ((c.files.map MegaFile.size).sum ≤ budget ∨
        ∃ g, c.files = [g] ∧ budget < g.size) ∧
      (∀ f ∈ c.files, budget < f.size → c.files = [f]) := by
  intro c hc
  have hinv : chunkInv budget c :=
    foldl_placeFile_inv (sortBySizeDesc files) [] (by simp) c hc
  refine ⟨hinv.2, ?_⟩
  intro f hf hbig
  rcases hinv.2 with hle | ⟨g, hg, _⟩
  · exfalso
    have : f.size ≤ (c.files.map MegaFile.size).sum :=
      List.le_sum_of_mem (List.mem_map_of_mem MegaFile.size hf)
    omega
  · rw [hg] at hf ⊢
    rcases List.mem_singleton.1 hf with rfl
    rfl

/-- Witness for C1 at a concrete input: budget 4, a 9-byte file (oversized)
and two 2-byte files. -/
theorem organize_chunk_size_bound_witness :
    0 < 4 ∧
      ∀ c ∈ organize_files_into_chunks "request_1" 4
          [⟨"h9", "big", 9, "big", ""⟩, ⟨"h2", "a", 2, "a", ""⟩,
            ⟨"h2b", "b", 2, "b", ""⟩],
        ((c.files.map MegaFile.size).sum ≤ 4 ∨
          ∃ g, c.files = [g] ∧ 4 < g.size) ∧
        (∀ f ∈ c.files, 4 < f.size → c.files = [f]) :=
  ⟨by decide,
    organize_chunk_size_bound "request_1" 4
      [⟨"h9", "big", 9, "big", ""⟩, ⟨"h2", "a", 2, "a", ""⟩,
        ⟨"h2b", "b", 2, "b", ""⟩] (by decide)⟩

theorem tryPlaceFile_perm {budget : Nat} {f : MegaFile} :
    ∀ {chunks chunks' : List ChunkInfo},
      tryPlaceFile budget f chunks = some chunks' →
      chunks'.flatMap ChunkInfo.files ~ f :: chunks.flatMap ChunkInfo.files := by
  intro chunks
  induction chunks with
  | nil => intro chunks' h; simp [tryPlaceFile] at h
  | cons c cs ih =>
      intro chunks' h
      rw [tryPlaceFile] at h
      by_cases hfit : c.total_size + f.size ≤ budget
      · rw [if_pos hfit] at h
        cases h
        simp only [List.flatMap_cons, List.append_assoc, List.singleton_append]
        exact List.perm_middle
      · rw [if_neg hfit] at h
        cases hrec : tryPlaceFile budget f cs with
        | none => rw [hrec] at h; cases h
        | some cs' =>
            rw [hrec] at h
            cases h
            simp only [List.flatMap_cons]
            exact ((ih hrec).append_left c.files).trans List.perm_middle

theorem placeFile_perm {requestFolder : String} {budget : Nat}
    (chunks : List ChunkInfo) (f : MegaFile) :
    (placeFile requestFolder budget chunks f).flatMap ChunkInfo.files ~
      f :: chunks.flatMap ChunkInfo.files := by
  rw [placeFile]
  cases h : tryPlaceFile budget f chunks with
  | some chunks' => exact tryPlaceFile_perm h
  | none =>
      simp only [List.flatMap_append, List.flatMap_cons, List.flatMap_nil, List.append_nil]
      exact List.perm_append_singleton f _

theorem foldl_placeFile_perm {requestFolder : String} {budget : Nat} :
    ∀ (fs : List MegaFile) (chunks : List ChunkInfo),
      (fs.foldl (placeFile requestFolder budget) chunks).flatMap ChunkInfo.files ~
        fs ++ chunks.flatMap ChunkInfo.files := by
  intro fs
  induction fs with
  | nil => intro chunks; simp
  | cons f fs ih =>
      intro chunks
      calc (fs.foldl (placeFile requestFolder budget)
              (placeFile requestFolder budget chunks f)).flatMap ChunkInfo.files
          ~ fs ++ (placeFile requestFolder budget chunks f).flatMap ChunkInfo.files :=
            ih (placeFile requestFolder budget chunks f)
        _ ~ fs ++ (f :: chunks.flatMap ChunkInfo.files) :=
            (placeFile_perm chunks f).append_left fs
        _ ~ f :: (fs ++ chunks.flatMap ChunkInfo.files) := List.perm_middle

/-- C2: the multiset union of the files across all chunks returned by
`organize_files_into_chunks` is exactly the input file list (no drops, no
duplicates). -/
theorem organize_files_perm (requestFolder : String) (budget : Nat)
    (files : List MegaFile) :
    (organize_files_into_chunks requestFolder budget files).flatMap ChunkInfo.files ~
      files := by
  have h1 := @foldl_placeFile_perm requestFolder budget (sortBySizeDesc files) []
  simp only [List.flatMap_nil, List.append_nil] at h1
  exact h1.trans (List.perm_insertionSort _ files)

/-- One gigabyte, `1024^3` bytes (`CHUNK_SIZE_GB` is converted with
`1024 * 1024 * 1024` in `src/config.py` line 75). -/
def gb : Nat := 1024 * 1024 * 1024

/-- The 3GB file of the spec scenario. -/
def file3gb : MegaFile := ⟨"h3", "three", 3 * gb, "three", ""⟩

/-- The 2GB file of the spec scenario. -/
def file2gb : MegaFile := ⟨"h2", "two", 2 * gb, "two", ""⟩

/-- The 1GB file of the spec scenario. -/
def file1gb : MegaFile := ⟨"h1", "one", 1 * gb, "one", ""⟩

/-- The planner's output on the spec scenario: files of sizes 3GB, 2GB,
1GB with a 4GB budget. -/
def scenarioChunks : List ChunkInfo :=
  organize_files_into_chunks "request_1" (4 * gb) [file3gb, file2gb, file1gb]

/-- C3 counterexample: the claim says the 3GB file is placed alone in its
own chunk ("no room for others") with the 2GB and 1GB files together.  In
the code the placement test is `chunk.total_size + file.size <=
self.chunk_size_bytes` (`src/chunk_manager.py` line 97), and
`3GB + 1GB ≤ 4GB` holds, so the 1GB file joins the 3GB file's chunk: no
chunk contains the 3GB file alone, and no chunk holds the 2GB and 1GB
files together. -/
theorem scenario_not_as_claimed :
    (∀ c ∈ scenarioChunks, c.files ≠ [file3gb]) ∧
      (∀ c ∈ scenarioChunks, c.files ≠ [file2gb, file1gb]) ∧
      scenarioChunks.map ChunkInfo.files ≠ [[file3gb], [file2gb, file1gb]] := by
  decide

/-- C3 amended: on the 3GB/2GB/1GB files with a 4GB budget the planner
produces exactly two chunks, the first containing the 3GB and 1GB files
together (the 1GB file first-fits into the 3GB chunk since 3GB + 1GB
equals the budget), the second containing only the 2GB file. -/
theorem scenario_actual_chunks :
    scenarioChunks.map ChunkInfo.files = [[file3gb, file1gb], [file2gb]] ∧
      scenarioChunks.length = 2 := by
  decide

/-- `FileProgress` dataclass of `src/database.py` (lines 48-62): one row of
the `file_progress` table. -/
structure FileProgress where
  id : Nat
  request_id : Nat
  file_path : String
  file_name : String
  file_size : Nat
  downloaded_bytes : Nat
  chunk_number : Nat
  status : String
  mega_handle : String
  local_path : Option String
  created_at : String
  updated_at : String
deriving DecidableEq

/-- `start_chunk = request.current_chunk if resume else 0`
(`src/bot.py` line 610). -/
def startChunkOf (resume : Bool) (currentChunk : Nat) : Nat :=
  if resume then currentChunk else 0

/-- The files on which `MegaBot._process_download` invokes
`mega_downloader.download_file`, in order (`src/bot.py` lines 616-688):
`for chunk_idx in range(start_chunk, len(chunks))` and, inside it,
`for file_idx, file_info in enumerate(chunk.files)` followed by the
unconditional `await mega_downloader.download_file(file_info, ...)`.
The loop body never reads the persisted per-file status before the
download call (the `db.get_pending_files` lookup on lines 693-702 happens
only after the download, to record completion). -/
def downloadInvocations (chunks : List ChunkInfo) (startChunk : Nat) : List MegaFile :=
  (List.range' startChunk (chunks.length - startChunk)).flatMap
    (fun i => (chunks.getD i default).files)

theorem range'_shift_getD {α : Type} (x : α) (xs : List α) (d : α) :
    ∀ (n s : Nat),
      (List.range' (s + 1) n).map (fun i => (x :: xs).getD i d) =
        (List.range' s n).map (fun i => xs.getD i d) := by
  intro n
  induction n with
  | zero => intro s; rfl
  | succ n ih =>
      intro s
      rw [List.range'_succ, List.range'_succ, List.map_cons, List.map_cons,
        List.getD_cons_succ, ih (s + 1)]

theorem getD_range'_drop {α : Type} (d : α) :
    ∀ (l : List α) (s : Nat),
      (List.range' s (l.length - s)).map (fun i => l.getD i d) = l.drop s := by
  intro l
  induction l with
  | nil => intro s; simp
  | cons x xs ih =>
      intro s
      cases s with
      | zero =>
          rw [List.drop_zero, List.length_cons, Nat.sub_zero, List.range'_succ,
            List.map_cons, List.getD_cons_zero, range'_shift_getD x xs d _ 0]
          have h0 := ih 0
          rw [Nat.sub_zero, List.drop_zero] at h0
          rw [h0]
      | succ s =>
          rw [List.length_cons, Nat.succ_sub_succ, List.drop_succ_cons,
            range'_shift_getD x xs d _ s, ih s]

/-- C4 amended: a resumed run (`resume=True`) restarts from the persisted
`current_chunk`.  It invokes the per-file download operation on exactly
the files of every chunk with index at least `current_chunk` — including
files whose persisted per-file status is `completed`; only whole chunks
before `current_chunk` are skipped.  The persisted per-file status is not
consulted before downloading. -/
theorem resume_downloads_chunk_suffix (chunks : List ChunkInfo) (currentChunk : Nat) :
    downloadInvocations chunks (startChunkOf true currentChunk) =
      (chunks.drop currentChunk).flatMap ChunkInfo.files := by
  have hmap := getD_range'_drop (default : ChunkInfo) chunks currentChunk
  rw [downloadInvocations, startChunkOf, if_pos rfl,
    ← List.flatMap_map (fun i => chunks.getD i default) ChunkInfo.files, hmap]

/-- A persisted row marking the first scenario file completed. -/
def resumedRowA : FileProgress :=
  ⟨1, 1, "a", "a", 1, 1, 0, "completed", "hA", some "request_1/chunk_0/a",
    "2024-01-01T00:00:00", "2024-01-01T00:00:00"⟩

/-- The two files of the resumed request; both fit in one chunk. -/
def resumedFileA : MegaFile := ⟨"hA", "a", 1, "a", ""⟩

/-- Second file of the resumed request. -/
def resumedFileB : MegaFile := ⟨"hB", "b", 1, "b", ""⟩

/-- C4 counterexample: resuming a request whose persisted `current_chunk`
is 0 while file `a` (handle `hA`) is already marked `completed` in the
store still invokes the download operation on file `a`: the claim that a
resumed run never re-downloads a completed file is false on the code. -/
theorem resume_redownloads_completed_file :
    resumedRowA.status = "completed" ∧
      resumedRowA.mega_handle = resumedFileA.handle ∧
      resumedFileA ∈
        downloadInvocations
          (organize_files_into_chunks "request_1" (4 * gb)
            [resumedFileA, resumedFileB])
          (startChunkOf true 0) := by
  decide

/-- The `while True: chunk = await f.read(max_size)` loop of
`ChunkManager.split_zip_for_telegram` (`src/chunk_manager.py` lines
242-253), reading the archive `max_size` bytes at a time and stopping on
an empty read (`if not chunk: break`).  `fuel` bounds the number of loop
iterations; `content.length + 1` iterations always suffice. -/
def readLoop (maxSize : Nat) : Nat → List Nat → List (List Nat)
  | 0, _ => []
  | fuel + 1, content =>
    let chunk := content.take maxSize
    if chunk = [] then []
    else chunk :: readLoop maxSize fuel (content.drop maxSize)

/-- The full read loop of `split_zip_for_telegram`: the list of byte
chunks read from `content`, `maxSize` bytes at a time. -/
def readSplit (maxSize : Nat) (content : List Nat) : List (List Nat) :=
  readLoop maxSize (content.length + 1) content

/-- Decimal digits of `n`, least significant first (empty for 0); the
first argument is recursion fuel, `n` itself always suffices. -/
def digitsRev : Nat → Nat → List Nat
  | 0, _ => []
  | _, 0 => []
  | fuel + 1, n => n % 10 :: digitsRev fuel (n / 10)

/-- Python's `f"{num:03d}"` formatting used for part numbers
(`src/chunk_manager.py` line 248): the decimal digits of `num`,
left-padded with zeros to at least three characters (never truncated, so
part number 1000 becomes the four characters `1000`). -/
def pad3 (n : Nat) : List Char :=
  let ds := if n = 0 then ['0']
    else ((digitsRev n n).reverse).map (fun d => Char.ofNat (48 + d))
  List.replicate (3 - ds.length) '0' ++ ds

/-- `zip_path.with_suffix(f".zip.part{part_num:03d}")`
(`src/chunk_manager.py` line 248).  `stem` is the zip path without its
final `.zip` extension, which `with_suffix` replaces. -/
def partPath (stem : List Char) (num : Nat) : List Char :=
  stem ++ (".zip.part").data ++ pad3 num

/-- The original archive path `zip_path` for a given stem. -/
def zipPath (stem : List Char) : List Char :=
  stem ++ ".zip".data

/-- Lexicographic comparison of paths by character code — the order the
spec's "lexical sort" arranges part files in. -/
def lexLe : List Char → List Char → Bool
  | [], _ => true
  | _ :: _, [] => false
  | a :: as, b :: bs => if a < b then true else if b < a then false else lexLe as bs

/-- Sort name/content pairs by lexical order of the names. -/
def sortByName (parts : List (List Char × List Nat)) : List (List Char × List Nat) :=
  List.insertionSort (fun x y => lexLe x.1 y.1 = true) parts

/-- `ChunkManager.split_zip_for_telegram` (`src/chunk_manager.py` lines
217-256).  Returns the list of paths the function returns together with
the part files it writes to local disk (as path/content pairs, in
creation order).  When the archive already fits in `maxSize` it returns
just the original zip path and writes nothing. -/
def split_zip_for_telegram (stem : List Char) (maxSize : Nat) (content : List Nat) :
    List (List Char) × List (List Char × List Nat) :=
  if content.length ≤ maxSize then ([zipPath stem], [])
  else
    let parts := readSplit maxSize content
    let names := (List.range parts.length).map (partPath stem)
    (names, names.zip parts)

theorem readLoop_join (maxSize : Nat) (hm : 0 < maxSize) :
    ∀ (fuel : Nat) (content : List Nat), content.length < fuel →
      (readLoop maxSize fuel content).flatten = content ∧
        ∀ p ∈ readLoop maxSize fuel content, p.length ≤ maxSize := by
  intro fuel
  induction fuel with
  | zero => intro content h; omega
  | succ fuel ih =>
      intro content h
      cases content with
      | nil => simp [readLoop]
      | cons b bs =>
          obtain ⟨m, rfl⟩ : ∃ m, maxSize = m + 1 :=
            ⟨maxSize - 1, by omega⟩
          have hne : (b :: bs).take (m + 1) ≠ [] := by simp
          rw [readLoop]
          simp only [if_neg hne]
          have hlen : ((b :: bs).drop (m + 1)).length < fuel := by
            rw [List.length_drop]
            simp only [List.length_cons] at h ⊢
            omega
          obtain ⟨ihj, ihs⟩ := ih ((b :: bs).drop (m + 1)) hlen
          refine ⟨?_, ?_⟩
          · rw [List.flatten_cons, ihj, List.take_append_drop]
          · intro p hp
            rcases List.mem_cons.1 hp with rfl | hp
            · rw [List.length_take]; omega
            · exact ihs p hp

/-- C5 amended: for a positive `maxPartSize`, `split_zip_for_telegram` on
an archive that already fits returns only the original archive path and
writes no part file; otherwise it writes part files of at most
`maxPartSize` bytes each, returns their paths in creation order
(increasing part number), and concatenating the parts in that returned
order reproduces the original archive byte-for-byte.  (Lexical sort of
the names recovers this order only while part numbers stay below 1000 —
see the counterexample theorem.) -/
theorem split_zip_roundtrip (stem : List Char) (maxSize : Nat)
    (content : List Nat) (hm : 0 < maxSize) :
    (content.length ≤ maxSize →
      split_zip_for_telegram stem maxSize content = ([zipPath stem], [])) ∧
    (maxSize < content.length →
      ((split_zip_for_telegram stem maxSize content).2.map Prod.snd).flatten
          = content ∧
        (split_zip_for_telegram stem maxSize content).1 =
          (split_zip_for_telegram stem maxSize content).2.map Prod.fst ∧
        ∀ p ∈ (split_zip_for_telegram stem maxSize content).2,
          p.2.length ≤ maxSize) := by
  constructor
  · intro hle
    rw [split_zip_for_telegram, if_pos hle]
  · intro hgt
    have hnle : ¬ content.length ≤ maxSize := by omega
    obtain ⟨hj, hs⟩ := readLoop_join maxSize hm (content.length + 1) content
      (Nat.lt_succ_self _)
    have hj' : (readSplit maxSize content).flatten = content := hj
    have hs' : ∀ p ∈ readSplit maxSize content, p.length ≤ maxSize := hs
    have hlen : ((List.range (readSplit maxSize content).length).map
        (partPath stem)).length = (readSplit maxSize content).length := by
      rw [List.length_map, List.length_range]
    rw [split_zip_for_telegram]
    simp only [if_neg hnle]
    refine ⟨?_, ?_, ?_⟩
    · rw [List.map_snd_zip _ _ (le_of_eq hlen.symm), hj']
    · rw [List.map_fst_zip _ _ (le_of_eq hlen)]
    · intro p hp
      have := List.of_mem_zip hp
      exact hs' p.2 this.2

/-- Witness for C5's amended theorem at a concrete input: a 3-byte
archive split with `maxPartSize = 2` into parts `[1, 2]` and `[3]`. -/
theorem split_zip_roundtrip_witness :
    0 < 2 ∧
      ((3 ≤ 2 →
        split_zip_for_telegram ("a".data) 2 [1, 2, 3] = ([zipPath "a".data], [])) ∧
      (2 < 3 →
        ((split_zip_for_telegram ("a".data) 2 [1, 2, 3]).2.map Prod.snd).flatten
            = [1, 2, 3] ∧
          (split_zip_for_telegram ("a".data) 2 [1, 2, 3]).1 =
            (split_zip_for_telegram ("a".data) 2 [1, 2, 3]).2.map Prod.fst ∧
          ∀ p ∈ (split_zip_for_telegram ("a".data) 2 [1, 2, 3]).2,
            p.2.length ≤ 2)) :=
  ⟨by decide, by
    have h := split_zip_roundtrip ("a".data) 2 [1, 2, 3] (by decide)
    simpa using h⟩

/-- A 1001-byte archive (bytes `i % 256` for `i < 1001`). -/
def bigContent : List Nat := (List.range 1001).map (fun i => i % 256)

set_option maxRecDepth 100000 in
/-- C5 counterexample: splitting the 1001-byte archive with
`maxPartSize = 1` produces part numbers 0 through 1000; `%03d` pads only
to three digits, so the name `...part1000` sorts lexically before
`...part101`, and concatenating the parts in lexical-sort order of their
names does not reproduce the original archive.  The claim's round-trip
property is false for this input. -/
theorem split_lexical_sort_fails :
    ((sortByName
        (split_zip_for_telegram ("chunk_0".data) 1 bigContent).2).map
          Prod.snd).flatten ≠ bigContent := by
  decide

/-- Outcome of one `bot.send_document` attempt inside
`TelegramUploader.upload_file` (`src/uploader.py` lines 74-106): success,
a `RetryAfter` rate-limit signal carrying the provider-specified wait in
seconds, a `TelegramError`, or any other exception. -/
inductive SendOutcome where
  | ok
  | retryAfter (seconds : Nat)
  | telegramError
  | otherError
deriving DecidableEq

/-- The try/except ladder of `TelegramUploader.upload_file`
(`src/uploader.py` lines 74-106) for a file that exists and fits the size
limit, driven by the provider's response to each successive attempt.
Returns the call's result — `some true` on success, `some false` on a
`TelegramError` or any other exception, `none` when every listed attempt
was rate-limited (the code is still inside its retry recursion) —
together with the list of sleeps performed: on `RetryAfter` the code
sleeps `e.retry_after` seconds and re-invokes the whole of `upload_file`
on the same arguments (`return await self.upload_file(...)`, lines
93-98). -/
def sendWithRetry : List SendOutcome → Option Bool × List Nat
  | [] => (none, [])
  | .ok :: _ => (some true, [])
  | .retryAfter t :: rest =>
      let r := sendWithRetry rest
      (r.1, t :: r.2)
  | .telegramError :: _ => (some false, [])
  | .otherError :: _ => (some false, [])

/-- Result of `TelegramUploader._upload_split_file`: the returned boolean,
the part indices whose upload succeeded (in order), and the part files
still present on local disk when the function returns. -/
structure SplitUploadResult where
  success : Bool
  delivered : List Nat
  partsOnDisk : List Nat
deriving DecidableEq

/-- The per-part upload loop of `TelegramUploader._upload_split_file`
(`src/uploader.py` lines 155-174), over the list of part indices still to
process; `partResult i` is the boolean result of the inner
`self.upload_file` call for part `i`.  After a successful part upload the
part file is removed (`await aiofiles.os.remove(part_path)`, line 172);
when a part upload returns `False` the function returns `False`
immediately (`if not success: return False`, lines 164-165) — the
cleanup of lines 178-181 lives in the `except` branch and does not run on
a returned failure, so the failed part and all later parts stay on
disk. -/
def uploadPartsLoop (partResult : Nat → Bool) : List Nat → SplitUploadResult
  | [] => ⟨true, [], []⟩
  | i :: rest =>
    if partResult i then
      let r := uploadPartsLoop partResult rest
      ⟨r.success, i :: r.delivered, r.partsOnDisk⟩
    else
      ⟨false, [], i :: rest⟩

/-- `part_size = self.max_file_size - (10 * 1024 * 1024)`
(`src/uploader.py` line 128): each part leaves a 10MB margin below the
sink's per-item limit. -/
def part_size (maxFileSize : Nat) : Nat :=
  maxFileSize - 10 * 1024 * 1024

/-- `TelegramUploader._upload_split_file` (`src/uploader.py` lines
108-182): split the file's bytes into parts of `part_size` bytes (the
same `f.read` loop as the zip splitter, lines 136-147) and upload the
parts in order. -/
def uploadSplitFile (maxFileSize : Nat) (content : List Nat)
    (partResult : Nat → Bool) : SplitUploadResult :=
  uploadPartsLoop partResult
    (List.range (readSplit (part_size maxFileSize) content).length)

/-- `TelegramUploader.upload_file` (`src/uploader.py` lines 42-106):
`(some false, [])` when the file does not exist (lines 61-63); delegation
to `_upload_split_file` when the file exceeds `self.max_file_size` (lines
67-72; the sleeps of the inner per-part calls are accounted inside
`partResult`); otherwise the send/retry ladder. -/
def upload_file (fileExists : Bool) (maxFileSize : Nat) (content : List Nat)
    (outcomes : List SendOutcome) (partResult : Nat → Bool) :
    Option Bool × List Nat :=
  if fileExists = false then (some false, [])
  else if maxFileSize < content.length then
    (some (uploadSplitFile maxFileSize content partResult).success, [])
  else sendWithRetry outcomes

/-- Whether an attempt outcome is a provider rate-limit signal. -/
def isRetryAfter : SendOutcome → Bool
  | .retryAfter _ => true
  | _ => false

/-- C6 counterexample: an upload whose first two attempts are both
rate-limited and whose third attempt succeeds returns success after two
retries (sleeping the two provider-specified durations).  The claim says
a second consecutive rate-limit must make the delivery return failure
rather than retry again; the code instead keeps retrying
(`return await self.upload_file(...)` is reached on every `RetryAfter`,
with no retry counter). -/
theorem upload_retries_after_second_rate_limit :
    upload_file true 100 [1, 2, 3]
        [SendOutcome.retryAfter 3, SendOutcome.retryAfter 4, SendOutcome.ok]
        (fun _ => true) =
      (some true, [3, 4]) := by
  decide

theorem sendWithRetry_rate_limit_prefix (o : SendOutcome)
    (ho : isRetryAfter o = false) (rest : List SendOutcome) :
    ∀ ts : List Nat,
      sendWithRetry (ts.map SendOutcome.retryAfter ++ o :: rest) =
        (some (decide (o = SendOutcome.ok)), ts) := by
  intro ts
  induction ts with
  | nil =>
      cases o with
      | ok => simp [sendWithRetry]
      | retryAfter t => simp [isRetryAfter] at ho
      | telegramError => simp [sendWithRetry]
      | otherError => simp [sendWithRetry]
  | cons t ts ih =>
      simp only [List.map_cons, List.cons_append, sendWithRetry, List.append_eq, ih]

/-- C6 amended: on every rate-limit response `upload_file` sleeps the
provider-specified duration and retries; it keeps doing so for as long as
rate-limits keep arriving (the retry loop is unbounded), and returns the
result of the first non-rate-limited attempt — success exactly when that
attempt succeeds.  The sleeps performed are exactly the durations the
provider specified, one per rate-limited attempt. -/
theorem upload_rate_limit_retry_unbounded (maxFileSize : Nat)
    (content : List Nat) (ts : List Nat) (o : SendOutcome)
    (rest : List SendOutcome) (partResult : Nat → Bool)
    (hsize : content.length ≤ maxFileSize) (ho : isRetryAfter o = false) :
    upload_file true maxFileSize content
        (ts.map SendOutcome.retryAfter ++ o :: rest) partResult =
      (some (decide (o = SendOutcome.ok)), ts) := by
  rw [upload_file]
  simp only [Bool.true_eq_false, if_false, if_neg (by omega : ¬ maxFileSize < content.length)]
  exact sendWithRetry_rate_limit_prefix o ho rest ts

/-- Witness for C6's amended theorem: two rate-limits then a
`TelegramError` return failure after sleeping 2 and 3 seconds. -/
theorem upload_rate_limit_retry_unbounded_witness :
    ((3 : Nat) ≤ 5 ∧ isRetryAfter SendOutcome.telegramError = false) ∧
      upload_file true 5 [7, 8, 9]
          ([2, 3].map SendOutcome.retryAfter ++ SendOutcome.telegramError :: [])
          (fun _ => true) =
        (some (decide (SendOutcome.telegramError = SendOutcome.ok)), [2, 3]) :=
  ⟨⟨by decide, by decide⟩,
    upload_rate_limit_retry_unbounded 5 [7, 8, 9] [2, 3]
      SendOutcome.telegramError [] (fun _ => true) (by decide) (by decide)⟩

/-- C7 counterexample: a 3-byte file split into three 1-byte parts
(`max_file_size = 10MB + 1`, so `part_size = 1`) where part 1's upload
fails.  The operation returns failure and delivers no later part, but the
failed part and the following one are still on local disk when it
returns (`partsOnDisk = [1, 2]`): the claim that every written part file
has been deleted by the time it returns is false on the code. -/
theorem split_upload_leaves_parts_on_failure :
    uploadSplitFile (10 * 1024 * 1024 + 1) [10, 20, 30] (fun i => i != 1) =
      ⟨false, [0], [1, 2]⟩ := by
  decide

theorem uploadPartsLoop_first_failure (partResult : Nat → Bool) (i : Nat) :
    ∀ (n s : Nat), (∀ j, s ≤ j → j < i → partResult j = true) →
      partResult i = false → s ≤ i → i < s + n →
      uploadPartsLoop partResult (List.range' s n) =
        ⟨false, List.range' s (i - s), List.range' i (s + n - i)⟩ := by
  intro n
  induction n with
  | zero => intro s _ _ _ hlt; omega
  | succ n ih =>
      intro s hprev hfail hsle hlt
      rw [List.range'_succ]
      by_cases hi : i = s
      · subst hi
        rw [uploadPartsLoop, if_neg (by simp [hfail])]
        have h1 : i - i = 0 := by omega
        have h2 : i + (n + 1) - i = n + 1 := by omega
        rw [h1, h2, List.range'_succ, List.range'_zero]
      · have hslt : s < i := by omega
        have hps : partResult s = true := hprev s (le_refl s) hslt
        rw [uploadPartsLoop, if_pos hps,
          ih (s + 1) (fun j hj hji => hprev j (by omega) hji) hfail
            (by omega) (by omega)]
        have h1 : i - s = (i - (s + 1)) + 1 := by omega
        have h2 : s + 1 + n - i = s + (n + 1) - i := by omega
        rw [h1, List.range'_succ, h2]

/-- C7 amended: when the upload of part `i` fails (returns `False`) and
all earlier parts succeeded, `_upload_split_file` returns failure, the
parts delivered are exactly those before `i` (no later part is
delivered), and the part files from `i` onward — already written to local
disk — are still on disk when it returns; only the parts delivered before
the failure have been deleted. -/
theorem split_upload_part_failure (maxFileSize : Nat) (content : List Nat)
    (partResult : Nat → Bool) (i : Nat)
    (hprev : ∀ j, j < i → partResult j = true)
    (hfail : partResult i = false)
    (hcount : i < (readSplit (part_size maxFileSize) content).length) :
    uploadSplitFile maxFileSize content partResult =
      ⟨false, List.range i,
        List.range' i ((readSplit (part_size maxFileSize) content).length - i)⟩ := by
  rw [uploadSplitFile, List.range_eq_range',
    uploadPartsLoop_first_failure partResult i
      (readSplit (part_size maxFileSize) content).length 0
      (fun j _ hji => hprev j hji) hfail (Nat.zero_le i) (by omega)]
  rw [Nat.sub_zero, Nat.zero_add, List.range_eq_range']

/-- Witness for C7's amended theorem: three 1-byte parts with part 1
failing; parts `[0]` delivered, parts `[1, 2]` left on disk. -/
theorem split_upload_part_failure_witness :
    ((∀ j, j < 1 → ((j : Nat) != 1) = true) ∧ ((1 : Nat) != 1) = false ∧
        1 < (readSplit (part_size (10 * 1024 * 1024 + 1)) [10, 20, 30]).length) ∧
      uploadSplitFile (10 * 1024 * 1024 + 1) [10, 20, 30] (fun i => i != 1) =
        ⟨false, List.range 1,
          List.range' 1
            ((readSplit (part_size (10 * 1024 * 1024 + 1)) [10, 20, 30]).length - 1)⟩ :=
  ⟨⟨by decide, by decide, by decide⟩,
    split_upload_part_failure (10 * 1024 * 1024 + 1) [10, 20, 30]
      (fun i => i != 1) 1 (by decide) (by decide) (by decide)⟩

/-- An item on the local filesystem under `storage_root/request_<id>`:
the chunk download directory `chunk_<n>` or the archive
`chunk_<n>.zip`. -/
inductive DiskItem where
  | chunkDir (n : Nat)
  | zipFile (n : Nat)
deriving DecidableEq

/-- The orchestrator-visible state of one request: the request row's
status, the chunk rows' `status` and `upload_status` columns keyed by
chunk number (`update_chunk_status`, `src/database.py` lines 437-474,
writes only `status` and `zip_path`; nothing in the code ever writes
`upload_status`, which keeps its schema default `'pending'`), and the
request's local files. -/
structure OrchState where
  requestStatus : String
  chunkStatus : Nat → String
  chunkUploadStatus : Nat → String
  disk : List DiskItem

/-- Pointwise update of a chunk-number-keyed column. -/
def setAt (f : Nat → String) (n : Nat) (v : String) : Nat → String :=
  fun m => if m = n then v else f m

/-- One iteration of `MegaBot._process_download`'s chunk loop
(`src/bot.py` lines 616-766) with the per-file downloads abstracted away,
driven by the boolean result `uploadOk` of `self.uploader.upload_chunk`
(line 738): `get_chunk_download_path` creates the chunk directory (line
634); `create_chunk_zip` writes the archive and sets the chunk row's
status to `"zipped"` (line 725; `src/chunk_manager.py` lines 204-212);
the request status is set to `"uploading"` (lines 728-731); on upload
success the chunk status becomes `"completed"` and `cleanup_chunk`
removes the chunk directory and archive (lines 746-749); on upload
failure only a notification message is sent — no store write and no file
deletion happen (lines 755-759); finally the request status returns to
`"downloading"` when this was not the last chunk (lines 761-766). -/
def processChunk (total : Nat) (st : OrchState) (i : Nat) (uploadOk : Bool) :
    OrchState :=
  let st1 : OrchState := { st with disk := DiskItem.chunkDir i :: st.disk }
  let st2 : OrchState := { st1 with
    disk := DiskItem.zipFile i :: st1.disk
    chunkStatus := setAt st1.chunkStatus i "zipped" }
  let st3 : OrchState := { st2 with requestStatus := "uploading" }
  let st4 : OrchState :=
    if uploadOk then
      { st3 with
        chunkStatus := setAt st3.chunkStatus i "completed"
        disk := st3.disk.filter
          (fun d => !(d == DiskItem.chunkDir i) && !(d == DiskItem.zipFile i)) }
    else st3
  if i < total - 1 then { st4 with requestStatus := "downloading" } else st4

/-- The `for chunk_idx in range(start_chunk, len(chunks))` loop of
`_process_download` (`src/bot.py` line 616): process the remaining
chunks in index order, chunk `idx` receiving the head of
`uploadResults`. -/
def runChunks (total : Nat) : OrchState → Nat → List Bool → OrchState
  | st, _, [] => st
  | st, idx, ok :: rest => runChunks total (processChunk total st idx ok) (idx + 1) rest

/-- The request state when `_process_download` reaches the chunk loop:
request status `"downloading"` (`src/bot.py` lines 586-589), every chunk
row freshly created with status `'pending'` and `upload_status`
`'pending'` (`assign_files_to_chunk`, `src/database.py` lines 398-406),
and no chunk files on disk yet. -/
def initialOrchState : OrchState :=
  ⟨"downloading", fun _ => "pending", fun _ => "pending", []⟩

/-- The per-request pipeline of `_process_download` after planning
(`src/bot.py` lines 616-787), for a fresh (non-resumed) request: run
every chunk — chunk `i`'s upload result being `uploadResults[i]` — then
mark the request `"completed"` (lines 769-772) and remove the whole
request folder (`cleanup_all`, line 775; `src/chunk_manager.py` lines
288-298), which deletes every local file of the request. -/
def processRequest (uploadResults : List Bool) : OrchState :=
  let final := runChunks uploadResults.length initialOrchState 0 uploadResults
  { final with requestStatus := "completed", disk := [] }

/-- C8 counterexample: a two-chunk request whose first chunk's upload
fails and whose second succeeds.  The request still completes (as the
claim says), but chunk 0 is never recorded as failed-to-deliver — its row
ends in status `"zipped"` with `upload_status` still `'pending'`, exactly
as before the upload attempt — and its local files are not left intact:
the end-of-request `cleanup_all` removes the whole request folder, so the
final disk state is empty. -/
theorem failed_upload_not_recorded :
    (processRequest [false, true]).requestStatus = "completed" ∧
      (processRequest [false, true]).chunkStatus 0 = "zipped" ∧
      (processRequest [false, true]).chunkUploadStatus 0 = "pending" ∧
      (processRequest [false, true]).disk = [] := by
  refine ⟨rfl, ?_, ?_, rfl⟩ <;> decide

theorem processChunk_chunkUploadStatus (total : Nat) (st : OrchState)
    (i : Nat) (ok : Bool) :
    (processChunk total st i ok).chunkUploadStatus = st.chunkUploadStatus := by
  rw [processChunk]
  by_cases h : ok = true
  · subst h
    simp only [if_pos rfl]
    split <;> rfl
  · rw [eq_false_of_ne_true h]
    simp only [Bool.false_eq_true, if_false]
    split <;> rfl

theorem processChunk_chunkStatus_ne (total : Nat) (st : OrchState)
    (idx : Nat) (ok : Bool) (i : Nat) (h : i ≠ idx) :
    (processChunk total st idx ok).chunkStatus i = st.chunkStatus i := by
  rw [processChunk]
  by_cases hok : ok = true
  · subst hok
    simp only [if_pos rfl]
    split <;> simp [setAt, h]
  · rw [eq_false_of_ne_true hok]
    simp only [Bool.false_eq_true, if_false]
    split <;> simp [setAt, h]

theorem processChunk_failed_chunkStatus (total : Nat) (st : OrchState)
    (i : Nat) :
    (processChunk total st i false).chunkStatus i = "zipped" := by
  rw [processChunk]
  simp only [Bool.false_eq_true, if_false]
  split <;> simp [setAt]

theorem processChunk_failed_disk (total : Nat) (st : OrchState) (i : Nat) :
    (processChunk total st i false).disk =
      DiskItem.zipFile i :: DiskItem.chunkDir i :: st.disk := by
  rw [processChunk]
  simp only [Bool.false_eq_true, if_false]
  split <;> rfl

theorem runChunks_chunkUploadStatus (total : Nat) :
    ∀ (l : List Bool) (st : OrchState) (idx : Nat),
      (runChunks total st idx l).chunkUploadStatus = st.chunkUploadStatus := by
  intro l
  induction l with
  | nil => intro st idx; rfl
  | cons ok rest ih =>
      intro st idx
      rw [runChunks, ih, processChunk_chunkUploadStatus]

theorem runChunks_chunkStatus_frame (total i : Nat) :
    ∀ (l : List Bool) (st : OrchState) (idx : Nat), i < idx →
      (runChunks total st idx l).chunkStatus i = st.chunkStatus i := by
  intro l
  induction l with
  | nil => intro st idx _; rfl
  | cons ok rest ih =>
      intro st idx hlt
      rw [runChunks, ih _ (idx + 1) (by omega),
        processChunk_chunkStatus_ne total st idx ok i (by omega)]

theorem runChunks_failed_zipped (total i : Nat) :
    ∀ (l : List Bool) (st : OrchState) (idx : Nat),
      idx ≤ i → i < idx + l.length → l.getD (i - idx) true = false →
      (runChunks total st idx l).chunkStatus i = "zipped" := by
  intro l
  induction l with
  | nil => intro st idx _ h _; simp at h; omega
  | cons ok rest ih =>
      intro st idx hle hlt hfail
      by_cases hidx : i = idx
      · subst hidx
        have hok : ok = false := by simpa using hfail
        subst hok
        rw [runChunks, runChunks_chunkStatus_frame total i rest _ (i + 1) (by omega),
          processChunk_failed_chunkStatus]
      · have h1 : i - idx = (i - (idx + 1)) + 1 := by omega
        rw [h1, List.getD_cons_succ] at hfail
        rw [runChunks]
        exact ih (processChunk total st idx ok) (idx + 1) (by omega)
          (by simp only [List.length_cons] at hlt; omega) hfail

/-- C8 amended: when chunk `i`'s archive upload fails, the orchestrator —
at that point — leaves the chunk's download directory and archive on disk
and merely continues (last conjunct), and the failed upload never causes
the overall request to fail: the request still ends `"completed"` and
processing covers every chunk.  However the chunk is not recorded as
failed-to-deliver — its row keeps the status `"zipped"` written before
the upload and its `upload_status` column keeps its initial `'pending'` —
and by the time the request finishes, the end-of-request `cleanup_all`
has removed all of the request's local files, including the failed
chunk's. -/
theorem failed_upload_continues (uploadResults : List Bool) (i : Nat)
    (hi : i < uploadResults.length)
    (hfail : uploadResults.getD i true = false) :
    (processRequest uploadResults).requestStatus = "completed" ∧
      (processRequest uploadResults).chunkStatus i = "zipped" ∧
      (processRequest uploadResults).chunkUploadStatus i = "pending" ∧
      (processRequest uploadResults).disk = [] ∧
      (∀ (total : Nat) (st : OrchState),
        (processChunk total st i false).disk =
            DiskItem.zipFile i :: DiskItem.chunkDir i :: st.disk ∧
          (processChunk total st i false).chunkStatus i = "zipped") := by
  refine ⟨rfl, ?_, ?_, rfl, ?_⟩
  · have h := runChunks_failed_zipped uploadResults.length i uploadResults
      initialOrchState 0 (Nat.zero_le i) (by omega) (by simpa using hfail)
    exact h
  · have h := runChunks_chunkUploadStatus uploadResults.length uploadResults
      initialOrchState 0
    calc (processRequest uploadResults).chunkUploadStatus i
        = (runChunks uploadResults.length initialOrchState 0
            uploadResults).chunkUploadStatus i := rfl
      _ = initialOrchState.chunkUploadStatus i := by rw [h]
      _ = "pending" := rfl
  · intro total st
    exact ⟨processChunk_failed_disk total st i,
      processChunk_failed_chunkStatus total st i⟩

/-- Witness for C8's amended theorem on the two-chunk request whose
first upload fails. -/
theorem failed_upload_continues_witness :
    (0 < [false, true].length ∧ [false, true].getD 0 true = false) ∧
      ((processRequest [false, true]).requestStatus = "completed" ∧
        (processRequest [false, true]).chunkStatus 0 = "zipped" ∧
        (processRequest [false, true]).chunkUploadStatus 0 = "pending" ∧
        (processRequest [false, true]).disk = [] ∧
        (∀ (total : Nat) (st : OrchState),
          (processChunk total st 0 false).disk =
              DiskItem.zipFile 0 :: DiskItem.chunkDir 0 :: st.disk ∧
            (processChunk total st 0 false).chunkStatus 0 = "zipped")) :=
  ⟨⟨by decide, by decide⟩,
    failed_upload_continues [false, true] 0 (by decide) (by decide)⟩

/-- `DownloadRequest` dataclass of `src/database.py` (lines 28-45): one
row of the `download_requests` table. -/
structure DownloadRequest where
  id : Nat
  user_id : Nat
  chat_id : Nat
  mega_link : String
  folder_name : String
  total_files : Nat
  total_size : Nat
  current_chunk : Nat
  total_chunks : Nat
  status : String
  downloaded_bytes : Nat
  error_message : Option String
  created_at : String
  updated_at : String
  folder_structure : String
deriving DecidableEq

/-- A keyword argument accepted by `Database.update_request`
(`src/database.py` lines 255-281).  The callers in `src/bot.py` pass the
fields `status`, `total_files`, `total_size`, `total_chunks`,
`current_chunk`, `downloaded_bytes` and `error_message`. -/
inductive RequestField where
  | status (v : String)
  | total_files (v : Nat)
  | total_size (v : Nat)
  | current_chunk (v : Nat)
  | total_chunks (v : Nat)
  | downloaded_bytes (v : Nat)
  | error_message (v : String)
deriving DecidableEq

/-- Effect of one keyword argument on the addressed row: the
`SET field = ?` item of the UPDATE statement built on lines 272-279 of
`src/database.py`. -/
def applyRequestField (row : DownloadRequest) : RequestField → DownloadRequest
  | .status v => { row with status := v }
  | .total_files v => { row with total_files := v }
  | .total_size v => { row with total_size := v }
  | .current_chunk v => { row with current_chunk := v }
  | .total_chunks v => { row with total_chunks := v }
  | .downloaded_bytes v => { row with downloaded_bytes := v }
  | .error_message v => { row with error_message := some v }

/-- `Database.update_request` (`src/database.py` lines 255-281), as seen
by the addressed row.  With no kwargs it returns immediately
(`if not kwargs: return`, lines 267-268) — no SQL statement runs, no
column changes, not even `updated_at`.  Otherwise
`kwargs['updated_at'] = datetime.utcnow().isoformat()` is added (line
270) and a single UPDATE applies every named field together with the
`updated_at` stamp; rows other than the addressed one are untouched
(`WHERE id = ?`). -/
def update_request (row : DownloadRequest) (kwargs : List RequestField)
    (now : String) : DownloadRequest :=
  if kwargs.isEmpty then row
  else { kwargs.foldl applyRequestField row with updated_at := now }

/-- A keyword argument accepted by `Database.update_file_progress`
(`src/database.py` lines 343-368).  The caller in `src/bot.py` (lines
696-701) passes `status`, `downloaded_bytes` and `local_path`. -/
inductive FileField where
  | status (v : String)
  | downloaded_bytes (v : Nat)
  | chunk_number (v : Nat)
  | local_path (v : String)
deriving DecidableEq

/-- Effect of one keyword argument of `update_file_progress` on the
addressed `file_progress` row. -/
def applyFileField (row : FileProgress) : FileField → FileProgress
  | .status v => { row with status := v }
  | .downloaded_bytes v => { row with downloaded_bytes := v }
  | .chunk_number v => { row with chunk_number := v }
  | .local_path v => { row with local_path := some v }

/-- `Database.update_file_progress` (`src/database.py` lines 343-368), as
seen by the addressed row: identical structure to `update_request` —
empty kwargs return immediately (lines 355-356); otherwise every named
field is applied together with the `updated_at` stamp (line 358). -/
def update_file_progress (row : FileProgress) (kwargs : List FileField)
    (now : String) : FileProgress :=
  if kwargs.isEmpty then row
  else { kwargs.foldl applyFileField row with updated_at := now }

/-- C10: calling `update_request` or `update_file_progress` with an empty
set of fields is a complete no-op — the addressed row is returned
unchanged, its `updated_at` included (the early return on
`if not kwargs` fires before `updated_at` is added to the kwargs) —
whereas every update with at least one field also stamps `updated_at`
with the current time. -/
theorem empty_update_is_noop :
    (∀ (row : DownloadRequest) (now : String), update_request row [] now = row) ∧
      (∀ (row : DownloadRequest) (f : RequestField) (fs : List RequestField)
          (now : String), (update_request row (f :: fs) now).updated_at = now) ∧
      (∀ (row : FileProgress) (now : String),
        update_file_progress row [] now = row) ∧
      (∀ (row : FileProgress) (f : FileField) (fs : List FileField)
          (now : String), (update_file_progress row (f :: fs) now).updated_at = now) :=
  ⟨fun _ _ => rfl, fun _ _ _ _ => rfl, fun _ _ => rfl, fun _ _ _ _ => rfl⟩

/-- The aggregate record returned by `Database.get_download_stats` for
the `file_progress` rows (`src/database.py` lines 486-500, 515-519). -/
structure DownloadStats where
  total_files : Nat
  total_size : Nat
  downloaded_bytes : Nat
  completed_files : Nat
deriving DecidableEq

/-- The file-row aggregation of `Database.get_download_stats`
(`src/database.py` lines 486-500): a live `SELECT COUNT(*),
SUM(file_size), SUM(downloaded_bytes), SUM(CASE WHEN status =
'completed' THEN 1 ELSE 0 END) FROM file_progress WHERE request_id = ?`
recomputed from the source rows on every call — no cached counters are
read.  The `or 0` fallbacks of lines 516-519 turn SQL `NULL` (no rows)
into 0, which the `Nat` sums already produce. -/
def get_download_stats (request_id : Nat) (rows : List FileProgress) :
    DownloadStats :=
  let rs := rows.filter (fun r => r.request_id == request_id)
  ⟨rs.length,
    (rs.map (fun r => r.file_size)).sum,
    (rs.map (fun r => r.downloaded_bytes)).sum,
    (rs.filter (fun r => r.status == "completed")).length⟩

/-- The reachable states of the `file_progress` table under the store
operations the code performs: `add_files` inserts rows with
`downloaded_bytes` at its schema default 0 and status `'pending'`
(`src/database.py` lines 282-309, 128, 130); the orchestrator marks a
file completed via `update_file_progress(pf.id, status='completed',
downloaded_bytes=file_info.size, local_path=...)` (`src/bot.py` lines
696-701), where `file_info.size` is the size recorded for that row's
handle when the rows were created from the same folder listing;
`assign_files_to_chunk` sets only `chunk_number` and `updated_at`
(`src/database.py` lines 386-395). -/
inductive StoreReachable : List FileProgress → Prop where
  | empty : StoreReachable []
  | addFiles (rows newRows : List FileProgress) :
      StoreReachable rows →
      (∀ r ∈ newRows, r.downloaded_bytes = 0 ∧ r.status = "pending") →
      StoreReachable (rows ++ newRows)
  | completeFile (pre post : List FileProgress) (row : FileProgress)
      (localPath now : String) :
      StoreReachable (pre ++ row :: post) →
      StoreReachable (pre ++
        update_file_progress row
          [FileField.status "completed",
            FileField.downloaded_bytes row.file_size,
            FileField.local_path localPath] now :: post)
  | assignChunk (pre post : List FileProgress) (row : FileProgress)
      (n : Nat) (now : String) :
      StoreReachable (pre ++ row :: post) →
      StoreReachable (pre ++ { row with chunk_number := n, updated_at := now } :: post)

theorem reachable_dl_le_size {rows : List FileProgress}
    (h : StoreReachable rows) :
    ∀ r ∈ rows, r.downloaded_bytes ≤ r.file_size := by
  induction h with
  | empty => intro r hr; simp at hr
  | addFiles rows newRows _ hnew ih =>
      intro r hr
      rcases List.mem_append.1 hr with hr | hr
      · exact ih r hr
      · rw [(hnew r hr).1]; exact Nat.zero_le _
  | completeFile pre post row localPath now _ ih =>
      intro r hr
      rcases List.mem_append.1 hr with hr | hr
      · exact ih r (List.mem_append_left _ hr)
      · rcases List.mem_cons.1 hr with rfl | hr
        · exact Nat.le_refl _
        · exact ih r (List.mem_append_right _ (List.mem_cons_of_mem _ hr))
  | assignChunk pre post row n now _ ih =>
      intro r hr
      rcases List.mem_append.1 hr with hr | hr
      · exact ih r (List.mem_append_left _ hr)
      · rcases List.mem_cons.1 hr with rfl | hr
        · exact ih row (List.mem_append_right _ (List.mem_cons_self _ _))
        · exact ih r (List.mem_append_right _ (List.mem_cons_of_mem _ hr))

/-- C9: for every request id and every reachable state of the store's
file rows, the statistics — computed by `get_download_stats` as a live
aggregation over the rows — satisfy `completed_files ≤ total_files` and
`downloaded_bytes ≤ total_size`. -/
theorem download_stats_bounds (request_id : Nat) (rows : List FileProgress)
    (h : StoreReachable rows) :
    (get_download_stats request_id rows).completed_files ≤
        (get_download_stats request_id rows).total_files ∧
      (get_download_stats request_id rows).downloaded_bytes ≤
        (get_download_stats request_id rows).total_size := by
  constructor
  · exact List.length_filter_le _ _
  · apply List.sum_le_sum
    intro r hr
    exact reachable_dl_le_size h r (List.mem_of_mem_filter hr)

/-- A freshly inserted pending row of request 1. -/
def pendingRowEx : FileProgress :=
  ⟨1, 1, "a", "a", 5, 0, 0, "pending", "hA", none,
    "2024-01-01T00:00:00", "2024-01-01T00:00:00"⟩

/-- `pendingRowEx` after the orchestrator marks it completed. -/
def completedRowEx : FileProgress :=
  update_file_progress pendingRowEx
    [FileField.status "completed",
      FileField.downloaded_bytes pendingRowEx.file_size,
      FileField.local_path "request_1/chunk_0/a"] "2024-01-01T00:05:00"

/-- Witness for C9 at a concrete reachable store: one row of request 1,
inserted pending and then marked completed. -/
theorem download_stats_bounds_witness :
    StoreReachable [completedRowEx] ∧
      ((get_download_stats 1 [completedRowEx]).completed_files ≤
          (get_download_stats 1 [completedRowEx]).total_files ∧
        (get_download_stats 1 [completedRowEx]).downloaded_bytes ≤
          (get_download_stats 1 [completedRowEx]).total_size) := by
  have hreach : StoreReachable [completedRowEx] :=
    StoreReachable.completeFile [] [] pendingRowEx "request_1/chunk_0/a"
      "2024-01-01T00:05:00"
      (StoreReachable.addFiles [] [pendingRowEx] StoreReachable.empty
        (by decide))
  exact ⟨hreach, download_stats_bounds 1 [completedRowEx] hreach⟩

end Mega
